import Mathlib

/-!
Shallow embedding of the Hedge Execution Engine
(`src/hedging/execution.py`, class `ExecutionManager`).

Python dictionaries holding numeric payloads (order-book snapshots, order
results, order params) are modelled as association lists
`List (String × ℚ)` with `dict.get(k, default)` semantics; floats are
modelled as rationals.  External calls (`place_order`) are modelled as
injected functions returning `Except String _` — an `Except.error` models
the call raising an exception whose text is the string.  The sequence
number passed to `placeOrder` models the fact that distinct calls to the
external service may behave differently.
-/

namespace HedgingBot

/-- `d.get(k, default)` on a Python dict modelled as an association list:
the value at the first occurrence of key `k`, or `default` when absent. -/
def dictGet (d : List (String × ℚ)) (k : String) (default : ℚ) : ℚ :=
  match d.find? (fun p => p.1 == k) with
  | some p => p.2
  | none => default

/-- `d[k]` / `k in d` support: the value at key `k` when present. -/
def lookupQ (d : List (String × ℚ)) (k : String) : Option ℚ :=
  (d.find? (fun p => p.1 == k)).map (·.2)

/-- `ExecutionStatus.FILLED` -/
def FILLED : String := "filled"

/-- `ExecutionStatus.FAILED` -/
def FAILED : String := "failed"

/-- `ExecutionStatus.PARTIALLY_FILLED` -/
def PARTIALLY_FILLED : String := "partially_filled"

/-- `ExecutionStatus.PENDING` -/
def PENDING : String := "pending"

/-- `_calculate_optimal_hedge_size` (execution.py lines 95-109), after the
market-data reads: `max_hedge = liquidity * 0.1`;
`vol_factor = max(0.5, 1 - volatility)`; `raw_hedge = target - current`;
`hedge_size = max(-max_hedge, min(max_hedge, raw_hedge * vol_factor))`. -/
def calculate_optimal_hedge_size (currentDelta volatility liquidity targetDelta : ℚ) : ℚ :=
  let maxHedge := liquidity * (1/10)
  let volFactor := max (1/2) (1 - volatility)
  let rawHedge := targetDelta - currentDelta
  max (-maxHedge) (min maxHedge (rawHedge * volFactor))

/-- The per-venue score computed inside the `_route_order` loop
(execution.py lines 118-124): price is `best_ask` when `hedge_size > 0`
else `best_bid` (default 0), depth default 0, fees key `'fees'` default
0.0004, latency default 0.1;
`score = -abs(price) - fees*1000 - latency*10 + depth*0.01`. -/
def venueScore (ob : List (String × ℚ)) (hedgeSize : ℚ) : ℚ :=
  let price := dictGet ob (if hedgeSize > 0 then "best_ask" else "best_bid") 0
  let depth := dictGet ob "depth" 0
  let fees := dictGet ob "fees" (4/10000)
  let latency := dictGet ob "latency" (1/10)
  let score := -(|price|) - fees * 1000 - latency * 10 + depth * (1/100)
  score

/-- The `best_params` dict built for the winning venue in `_route_order`
(execution.py line 128). -/
def venueParams (ob : List (String × ℚ)) (hedgeSize : ℚ) : List (String × ℚ) :=
  [("price", dictGet ob (if hedgeSize > 0 then "best_ask" else "best_bid") 0),
   ("depth", dictGet ob "depth" 0),
   ("fees", dictGet ob "fees" (4/10000)),
   ("latency", dictGet ob "latency" (1/10))]

/-- Loop state of `_route_order`: `best_venue` starts as `None`,
`best_score` starts as `-inf` (modelled as `none`, below every rational),
`best_params` starts as `{}`. -/
structure RouteState where
  bestVenue : Option String
  bestScore : Option ℚ
  bestParams : List (String × ℚ)
deriving DecidableEq

/-- One iteration of the `for venue in venues` loop of `_route_order`
(execution.py lines 118-128): update the best triple exactly when
`score > best_score` (a score always beats the initial `-inf`). -/
def routeStep (orderBooks : String → List (String × ℚ)) (hedgeSize : ℚ)
    (st : RouteState) (venue : String) : RouteState :=
  let ob := orderBooks venue
  let score := venueScore ob hedgeSize
  match st.bestScore with
  | none => ⟨some venue, some score, venueParams ob hedgeSize⟩
  | some bs =>
      if score > bs then ⟨some venue, some score, venueParams ob hedgeSize⟩ else st

/-- `_route_order` (execution.py lines 111-130): fold the loop over the
venue list and return `(best_venue, best_params)`.  With an empty venue
list this returns `(none, [])` — no error is raised. -/
def route_order (orderBooks : String → List (String × ℚ))
    (venues : List String) (hedgeSize : ℚ) : Option String × List (String × ℚ) :=
  let final := venues.foldl (routeStep orderBooks hedgeSize) ⟨none, none, []⟩
  (final.bestVenue, final.bestParams)

/-- `_split_into_tranches` (execution.py lines 132-138):
single tranche when `not partial or abs(hedge_size) < 1`; else
`n = min(5, max(2, int(abs(hedge_size) // 1)))` when `twap` else `n = 2`,
with `n` equal tranches of `hedge_size / n`. -/
def split_into_tranches (hedgeSize : ℚ) (partialFlag twap : Bool) : List ℚ :=
  if ¬(partialFlag = true) ∨ |hedgeSize| < 1 then [hedgeSize]
  else
    let n : ℕ := if twap then min 5 (max 2 (Int.toNat ⌊|hedgeSize|⌋)) else 2
    List.replicate n (hedgeSize / (n : ℚ))

/-- Per-tranche result dict of `_execute_tranche`: on success the dict has
`status`, `filled`, `cost`, `slippage`, `fees` keys and no `error` key; on
failure it has `status` and `error` and none of the fill/cost keys
(modelled as `none`, so later `r.get(k, 0)` reads default to 0). -/
structure TrancheResult where
  status : String
  filled : Option ℚ
  cost : Option ℚ
  slippage : Option ℚ
  fees : Option ℚ
  error : Option String
deriving DecidableEq

/-- `_execute_tranche` (execution.py lines 140-175).  Everything inside the
`try` block — including the `order_params['price']` subscript, which raises
`KeyError` when the routing produced empty params — is caught by the
`except` clause and classified FAILED with the error text.  The external
`place_order` call takes the side, `abs(tranche)` and the price, and
returns either an order-result dict or a raised exception's text.  On
success: FILLED iff `order_result.get('filled', 0) == abs(tranche)`, else
PARTIALLY_FILLED. -/
def execute_tranche (placeOrder : String → ℚ → ℚ → Except String (List (String × ℚ)))
    (tranche : ℚ) (orderParams : List (String × ℚ)) : TrancheResult :=
  match lookupQ orderParams "price" with
  | none => ⟨FAILED, none, none, none, none, some "KeyError: price"⟩
  | some price =>
    match placeOrder (if tranche > 0 then "buy" else "sell") |tranche| price with
    | .error e => ⟨FAILED, none, none, none, none, some e⟩
    | .ok res =>
        let fq := dictGet res "filled" 0
        ⟨if fq = |tranche| then FILLED else PARTIALLY_FILLED,
         some fq, some (dictGet res "cost" 0), some (dictGet res "slippage" 0),
         some (dictGet res "fees" 0), none⟩

/-- `_aggregate_status` (execution.py lines 177-185): FILLED when `all`
statuses are FILLED (vacuously true on an empty list), else FAILED when
`any` is FAILED, else PARTIALLY_FILLED when `any` is PARTIALLY_FILLED,
else PENDING. -/
def aggregate_status (results : List TrancheResult) : String :=
  let statuses := results.map (·.status)
  if statuses.all (· = FILLED) then FILLED
  else if statuses.any (· = FAILED) then FAILED
  else if statuses.any (· = PARTIALLY_FILLED) then PARTIALLY_FILLED
  else PENDING

/-- Output record of `_cost_benefit_analysis`. -/
structure CostBenefit where
  total_cost : ℚ
  total_fees : ℚ
  total_slippage : ℚ
  filled : ℚ
  target_delta : ℚ
  benefit : ℚ
  cost_per_unit : ℚ
deriving DecidableEq

/-- `_cost_benefit_analysis` (execution.py lines 187-202): sums use
`r.get(k, 0)`; `benefit = abs(filled) / abs(target_delta) if target_delta
else 0`; `cost_per_unit = total_cost / filled if filled else 0`.  The
`hedge_size` argument is accepted but unused, as in the source. -/
def cost_benefit_analysis (results : List TrancheResult)
    (hedgeSize targetDelta : ℚ) : CostBenefit :=
  let total_cost := (results.map (fun r => r.cost.getD 0)).sum
  let total_fees := (results.map (fun r => r.fees.getD 0)).sum
  let total_slippage := (results.map (fun r => r.slippage.getD 0)).sum
  let fq := (results.map (fun r => r.filled.getD 0)).sum
  let _ := hedgeSize
  { total_cost := total_cost
    total_fees := total_fees
    total_slippage := total_slippage
    filled := fq
    target_delta := targetDelta
    benefit := if targetDelta ≠ 0 then |fq| / |targetDelta| else 0
    cost_per_unit := if fq ≠ 0 then total_cost / fq else 0 }

/-- The execution summary assembled by `execute_hedge` (execution.py lines
80-90), restricted to the fields the claims are about. -/
structure Summary where
  hedge_size : ℚ
  venue : Option String
  status : String
  execution_results : List TrancheResult
  cost_benefit : CostBenefit
deriving DecidableEq

/-- `execute_hedge` (execution.py lines 42-93), with the external
collaborators injected: `currentDelta` from `risk_manager.get_position`,
`volatility`/`liquidity` from `get_market_data`, `venues` from
`get_available_venues`, `orderBooks` from `get_order_book`, and
`placeOrder` indexed by the tranche's position in the sequence (distinct
external calls may answer differently).  The pipeline never aborts: it
computes the hedge size, routes, splits into tranches, executes every
tranche in order, aggregates, analyses cost-benefit and assembles the
summary. -/
def execute_hedge (currentDelta volatility liquidity : ℚ)
    (venues : List String) (orderBooks : String → List (String × ℚ))
    (placeOrder : ℕ → String → ℚ → ℚ → Except String (List (String × ℚ)))
    (targetDelta : ℚ) (partialFlag twap : Bool) : Summary :=
  let hedgeSize := calculate_optimal_hedge_size currentDelta volatility liquidity targetDelta
  let routed := route_order orderBooks venues hedgeSize
  let tranches := split_into_tranches hedgeSize partialFlag twap
  let results := tranches.enum.map (fun it => execute_tranche (placeOrder it.1) it.2 routed.2)
  { hedge_size := hedgeSize
    venue := routed.1
    status := aggregate_status results
    execution_results := results
    cost_benefit := cost_benefit_analysis results hedgeSize targetDelta }

/-! ## Spec-side definitions for refinement comparisons -/

/-- Modelled from the spec's words (§4.1): `clamp(v, lo, hi)`, the value `v`
clamped into `[lo, hi]`. -/
def clampSpec (v lo hi : ℚ) : ℚ := max lo (min hi v)

/-! ## Theorems -/

/-- C3: for every current delta, target delta, volatility and liquidity the
hedge size equals `clamp((target − current) × max(0.5, 1 − volatility),
−0.10 × liquidity, +0.10 × liquidity)`; the concrete example
(liquidity 100000, volatility 0.05, current 0, target 1) yields 0.95
unclamped; and for volatility in `[0,1]` and positive liquidity the hedge
size lies within `[−0.10 × liquidity, +0.10 × liquidity]`. -/
theorem C3_hedge_size_formula :
    (∀ c v l t : ℚ, calculate_optimal_hedge_size c v l t
        = clampSpec ((t - c) * max (1/2) (1 - v)) (-(l * (1/10))) (l * (1/10)))
    ∧ calculate_optimal_hedge_size 0 (5/100) 100000 1 = 95/100
    ∧ (∀ c v l t : ℚ, 0 ≤ v → v ≤ 1 → 0 < l →
        -(l * (1/10)) ≤ calculate_optimal_hedge_size c v l t
        ∧ calculate_optimal_hedge_size c v l t ≤ l * (1/10)) := by
  refine ⟨fun c v l t => rfl, by norm_num [calculate_optimal_hedge_size, clampSpec], ?_⟩
  intro c v l t _ _ hl
  show -(l * (1/10)) ≤ max (-(l * (1/10))) (min (l * (1/10)) ((t - c) * max (1/2) (1 - v)))
      ∧ max (-(l * (1/10))) (min (l * (1/10)) ((t - c) * max (1/2) (1 - v))) ≤ l * (1/10)
  constructor
  · exact le_max_left _ _
  · exact max_le (by linarith) (min_le_left _ _)

/-- Witness for C3 at volatility 0.05, liquidity 100000, current 0,
target 1. -/
theorem C3_hedge_size_formula_witness :
    -(100000 * (1/10) : ℚ) ≤ calculate_optimal_hedge_size 0 (5/100) 100000 1
    ∧ calculate_optimal_hedge_size 0 (5/100) 100000 1 ≤ 100000 * (1/10) :=
  C3_hedge_size_formula.2.2 0 (5/100) 100000 1 (by norm_num) (by norm_num) (by norm_num)

/-- C6 counterexample: with liquidity −100000 (non-positive), volatility
0.05, current delta 0 and target delta 1, the computed hedge size is 10000,
not 0 — `max_hedge` becomes −10000 and the inverted clamp bounds force the
result to `−max_hedge`. -/
theorem C6_counterexample :
    calculate_optimal_hedge_size 0 (5/100) (-100000) 1 = 10000
    ∧ (10000 : ℚ) ≠ 0 := by
  constructor
  · norm_num [calculate_optimal_hedge_size]
  · norm_num

/-- C6 amended: the calculation raises no error for non-positive liquidity,
but only liquidity = 0 degrades to hedge size 0; for negative liquidity the
clamp bounds invert and the result is `−0.10 × liquidity` (positive),
independent of the deltas and volatility. -/
theorem C6_amended_nonpositive_liquidity (c v l t : ℚ) :
    calculate_optimal_hedge_size c v 0 t = 0
    ∧ (l < 0 → calculate_optimal_hedge_size c v l t = -(l * (1/10))) := by
  constructor
  · show max (-(0 * (1/10))) (min (0 * (1/10)) ((t - c) * max (1/2) (1 - v))) = 0
    have hm : min (0 * (1/10) : ℚ) ((t - c) * max (1/2) (1 - v)) ≤ 0 := by
      calc min (0 * (1/10) : ℚ) ((t - c) * max (1/2) (1 - v)) ≤ 0 * (1/10) := min_le_left _ _
        _ = 0 := by ring
    rw [show (-(0 * (1/10)) : ℚ) = 0 by ring]
    exact max_eq_left hm
  · intro hl
    show max (-(l * (1/10))) (min (l * (1/10)) ((t - c) * max (1/2) (1 - v))) = -(l * (1/10))
    apply max_eq_left
    calc min (l * (1/10)) ((t - c) * max (1/2) (1 - v)) ≤ l * (1/10) := min_le_left _ _
      _ ≤ -(l * (1/10)) := by linarith

/-- Witness for the amended C6 at liquidity −100000. -/
theorem C6_amended_nonpositive_liquidity_witness :
    calculate_optimal_hedge_size 0 (5/100) (-100000) 1 = -((-100000) * (1/10) : ℚ) :=
  (C6_amended_nonpositive_liquidity 0 (5/100) (-100000) 1).2 (by norm_num)

/-- The scheduler always produces at least one tranche. -/
theorem split_into_tranches_ne_nil (h : ℚ) (p t : Bool) :
    split_into_tranches h p t ≠ [] := by
  intro hnil
  have hlen := congrArg List.length hnil
  simp only [split_into_tranches, List.length_nil] at hlen
  split at hlen
  · simp at hlen
  · rw [List.length_replicate] at hlen
    split at hlen
    · have h2 : 2 ≤ min 5 (max 2 (Int.toNat ⌊|h|⌋)) := le_min (by norm_num) (le_max_left _ _)
      omega
    · omega

/-- C4: the scheduler produces exactly one tranche when `partial` is false
or `|hedge_size| < 1`; otherwise `min(5, max(2, floor(|hedge_size|)))`
tranches when `twap` is true and 2 tranches when `twap` is false; all
tranches equal `hedge_size / n` with the same sign as `hedge_size`, and
they sum to the hedge size exactly (hence within the 1e-9 tolerance). -/
theorem C4_tranche_schedule (h : ℚ) (p t : Bool) :
    ((p = false ∨ |h| < 1) → split_into_tranches h p t = [h])
    ∧ (p = true → 1 ≤ |h| → t = true →
        (split_into_tranches h p t).length = min 5 (max 2 (Int.toNat ⌊|h|⌋)))
    ∧ (p = true → 1 ≤ |h| → t = false →
        (split_into_tranches h p t).length = 2)
    ∧ (∀ x ∈ split_into_tranches h p t,
        x = h / ((split_into_tranches h p t).length : ℚ)
        ∧ (0 < h → 0 < x) ∧ (h < 0 → x < 0) ∧ (h = 0 → x = 0))
    ∧ (split_into_tranches h p t).sum = h
    ∧ |(split_into_tranches h p t).sum - h| ≤ 1/1000000000 := by
  have main : (split_into_tranches h p t = [h] ∧ (p = false ∨ |h| < 1))
      ∨ (p = true ∧ 1 ≤ |h|
          ∧ ∃ n : ℕ, 2 ≤ n
          ∧ n = (if t = true then min 5 (max 2 (Int.toNat ⌊|h|⌋)) else 2)
          ∧ split_into_tranches h p t = List.replicate n (h / (n : ℚ))) := by
    unfold split_into_tranches
    split
    · next hc =>
      left
      refine ⟨rfl, ?_⟩
      rcases hc with hc | hc
      · left; simpa using hc
      · right; exact hc
    · next hc =>
      push_neg at hc
      right
      refine ⟨by simpa using hc.1, hc.2, if t = true then min 5 (max 2 (Int.toNat ⌊|h|⌋)) else 2,
        ?_, rfl, ?_⟩
      · rcases t with _ | _
        · simp
        · simp only [if_pos rfl]
          exact le_min (by norm_num) (le_max_left _ _)
      · rcases t with _ | _ <;> simp
  rcases main with ⟨hs, hcond⟩ | ⟨hp, hge, n, hn2, hndef, hs⟩
  · -- single-tranche branch
    refine ⟨fun _ => hs, ?_, ?_, ?_, ?_, ?_⟩
    · intro hp hge ht
      rcases hcond with hc | hc
      · rw [hp] at hc; exact absurd hc (by simp)
      · linarith
    · intro hp hge ht
      rcases hcond with hc | hc
      · rw [hp] at hc; exact absurd hc (by simp)
      · linarith
    · intro x hx
      rw [hs] at hx
      simp only [List.mem_singleton] at hx
      subst hx
      rw [hs]
      refine ⟨by simp, fun hh => hh, fun hh => hh, fun hh => hh⟩
    · rw [hs]; simp
    · rw [hs]; simp
  · -- replicate branch
    have hnq : (0 : ℚ) < (n : ℚ) := by exact_mod_cast lt_of_lt_of_le (by norm_num) hn2
    have hlen : (split_into_tranches h p t).length = n := by rw [hs, List.length_replicate]
    refine ⟨?_, ?_, ?_, ?_, ?_, ?_⟩
    · rintro (hc | hc)
      · rw [hp] at hc; exact absurd hc (by simp)
      · linarith
    · intro _ _ ht
      rw [hlen, hndef, if_pos ht]
    · intro _ _ ht
      rw [hlen, hndef, ht]
      simp
    · intro x hx
      rw [hs] at hx
      have hx' : x = h / (n : ℚ) := List.eq_of_mem_replicate hx
      subst hx'
      rw [hlen]
      refine ⟨rfl, fun hh => div_pos hh hnq, fun hh => div_neg_of_neg_of_pos hh hnq,
        fun hh => by rw [hh, zero_div]⟩
    · rw [hs, List.sum_replicate, nsmul_eq_mul, mul_div_cancel₀ _ (ne_of_gt hnq)]
    · rw [hs, List.sum_replicate, nsmul_eq_mul, mul_div_cancel₀ _ (ne_of_gt hnq)]
      simp

/-- Witness for C4 at hedge size 7 with `partial = twap = true`: five
tranches of 7/5 summing to 7. -/
theorem C4_tranche_schedule_witness :
    (split_into_tranches 7 true true).length = 5
    ∧ (split_into_tranches 7 true true).sum = 7 := by
  have hmain := C4_tranche_schedule 7 true true
  have hlen := hmain.2.1 rfl (by norm_num) rfl
  refine ⟨?_, hmain.2.2.2.2.1⟩
  rw [hlen]
  norm_num

/-- C2: the aggregate status follows the four-rule precedence — FILLED iff
every tranche result is FILLED (vacuously FILLED on an empty list),
otherwise FAILED when any result is FAILED, otherwise PARTIALLY_FILLED
when any result is PARTIALLY_FILLED, otherwise PENDING; and over the
statuses the tranche executor can actually produce (FILLED,
PARTIALLY_FILLED, FAILED), PENDING implies no tranches were executed. -/
theorem C2_aggregate_status_precedence (results : List TrancheResult) :
    (aggregate_status results = FILLED ↔ ∀ r ∈ results, r.status = FILLED)
    ∧ ((¬ ∀ r ∈ results, r.status = FILLED) → (∃ r ∈ results, r.status = FAILED) →
        aggregate_status results = FAILED)
    ∧ ((¬ ∀ r ∈ results, r.status = FILLED) → (¬ ∃ r ∈ results, r.status = FAILED) →
        (∃ r ∈ results, r.status = PARTIALLY_FILLED) →
        aggregate_status results = PARTIALLY_FILLED)
    ∧ ((¬ ∀ r ∈ results, r.status = FILLED) → (¬ ∃ r ∈ results, r.status = FAILED) →
        (¬ ∃ r ∈ results, r.status = PARTIALLY_FILLED) →
        aggregate_status results = PENDING)
    ∧ ((∀ r ∈ results, r.status = FILLED ∨ r.status = PARTIALLY_FILLED ∨ r.status = FAILED) →
        aggregate_status results = PENDING → results = []) := by
  have hall : ((results.map (·.status)).all (· = FILLED) = true)
      ↔ ∀ r ∈ results, r.status = FILLED := by
    simp [List.all_eq_true]
  have hanyF : ((results.map (·.status)).any (· = FAILED) = true)
      ↔ ∃ r ∈ results, r.status = FAILED := by
    simp [List.any_eq_true]
  have hanyP : ((results.map (·.status)).any (· = PARTIALLY_FILLED) = true)
      ↔ ∃ r ∈ results, r.status = PARTIALLY_FILLED := by
    simp [List.any_eq_true]
  by_cases h1 : ∀ r ∈ results, r.status = FILLED
  · have hagg : aggregate_status results = FILLED := by
      simp only [aggregate_status]
      rw [if_pos (hall.mpr h1)]
    refine ⟨⟨fun _ => h1, fun _ => hagg⟩, fun hn => absurd h1 hn, fun hn => absurd h1 hn,
      fun hn => absurd h1 hn, fun _ hpend => ?_⟩
    rw [hagg] at hpend
    exact absurd hpend (by decide)
  · have h1b : ¬ ((results.map (·.status)).all (· = FILLED) = true) :=
      fun hb => h1 (hall.mp hb)
    by_cases h2 : ∃ r ∈ results, r.status = FAILED
    · have hagg : aggregate_status results = FAILED := by
        simp only [aggregate_status]
        rw [if_neg h1b, if_pos (hanyF.mpr h2)]
      refine ⟨⟨fun hf => ?_, fun hf => absurd hf h1⟩, fun _ _ => hagg,
        fun _ hn => absurd h2 hn, fun _ hn => absurd h2 hn, fun _ hpend => ?_⟩
      · rw [hagg] at hf; exact absurd hf (by decide)
      · rw [hagg] at hpend; exact absurd hpend (by decide)
    · have h2b : ¬ ((results.map (·.status)).any (· = FAILED) = true) :=
        fun hb => h2 (hanyF.mp hb)
      by_cases h3 : ∃ r ∈ results, r.status = PARTIALLY_FILLED
      · have hagg : aggregate_status results = PARTIALLY_FILLED := by
          simp only [aggregate_status]
          rw [if_neg h1b, if_neg h2b, if_pos (hanyP.mpr h3)]
        refine ⟨⟨fun hf => ?_, fun hf => absurd hf h1⟩, fun _ hf => absurd hf h2,
          fun _ _ _ => hagg, fun _ _ hn => absurd h3 hn, fun _ hpend => ?_⟩
        · rw [hagg] at hf; exact absurd hf (by decide)
        · rw [hagg] at hpend; exact absurd hpend (by decide)
      · have h3b : ¬ ((results.map (·.status)).any (· = PARTIALLY_FILLED) = true) :=
          fun hb => h3 (hanyP.mp hb)
        have hagg : aggregate_status results = PENDING := by
          simp only [aggregate_status]
          rw [if_neg h1b, if_neg h2b, if_neg h3b]
        refine ⟨⟨fun hf => ?_, fun hf => absurd hf h1⟩, fun _ hf => absurd hf h2,
          fun _ _ hf => absurd hf h3, fun _ _ _ => hagg, fun hprod _ => ?_⟩
        · rw [hagg] at hf; exact absurd hf (by decide)
        · push_neg at h1
          obtain ⟨r, hr, hne⟩ := h1
          rcases hprod r hr with hst | hst | hst
          · exact absurd hst hne
          · exact absurd ⟨r, hr, hst⟩ h3
          · exact absurd ⟨r, hr, hst⟩ h2

/-- Witness for C2 at the spec's example [FILLED, FAILED]: the aggregate
is FAILED. -/
theorem C2_aggregate_status_precedence_witness :
    aggregate_status
      [⟨FILLED, some 1, some 1, some 0, some 0, none⟩,
       ⟨FAILED, none, none, none, none, some "exchange down"⟩] = FAILED :=
  (C2_aggregate_status_precedence
      [⟨FILLED, some 1, some 1, some 0, some 0, none⟩,
       ⟨FAILED, none, none, none, none, some "exchange down"⟩]).2.1
    (by decide) (by decide)

/-- C8: the cost-benefit analysis is a total function whose divisions are
guarded — `cost_per_unit = total_cost / filled` when the total filled
quantity is non-zero and 0 when it is zero, and `benefit =
|filled| / |target_delta|` when the target delta is non-zero and 0 when it
is zero. -/
theorem C8_cost_benefit_guards (results : List TrancheResult) (hs td : ℚ) :
    ((cost_benefit_analysis results hs td).filled ≠ 0 →
      (cost_benefit_analysis results hs td).cost_per_unit
        = (cost_benefit_analysis results hs td).total_cost
            / (cost_benefit_analysis results hs td).filled)
    ∧ ((cost_benefit_analysis results hs td).filled = 0 →
      (cost_benefit_analysis results hs td).cost_per_unit = 0)
    ∧ (td ≠ 0 → (cost_benefit_analysis results hs td).benefit
        = |(cost_benefit_analysis results hs td).filled| / |td|)
    ∧ (td = 0 → (cost_benefit_analysis results hs td).benefit = 0) := by
  simp only [cost_benefit_analysis]
  refine ⟨fun h => ?_, fun h => ?_, fun h => ?_, fun h => ?_⟩
  · rw [if_pos h]
  · rw [if_neg (by simpa using h)]
  · rw [if_pos h]
  · rw [if_neg (by simpa using h)]

/-- Witness for C8: one FAILED result (all fill/cost keys absent, read as
0) and target delta 0 — both guards take their zero branch. -/
theorem C8_cost_benefit_guards_witness :
    (cost_benefit_analysis [⟨FAILED, none, none, none, none, some "boom"⟩] (1/2) 0).cost_per_unit = 0
    ∧ (cost_benefit_analysis [⟨FAILED, none, none, none, none, some "boom"⟩] (1/2) 0).benefit = 0 :=
  ⟨(C8_cost_benefit_guards [⟨FAILED, none, none, none, none, some "boom"⟩] (1/2) 0).2.1
      (by simp [cost_benefit_analysis]),
   (C8_cost_benefit_guards [⟨FAILED, none, none, none, none, some "boom"⟩] (1/2) 0).2.2.2 rfl⟩

/-- An external venue that rejects every order: `place_order` raises. -/
def rejectingVenue : String → ℚ → ℚ → Except String (List (String × ℚ)) :=
  fun _ _ _ => .error "order rejected"

/-- C7 counterexample: a zero hedge size does produce the single zero-size
tranche, but the tranche is not short-circuited — the external
`place_order` call is still made with quantity 0, and when that call
raises, the tranche result is FAILED, not FILLED. -/
theorem C7_counterexample :
    split_into_tranches 0 true true = [0]
    ∧ (execute_tranche rejectingVenue 0 [("price", 100)]).status = FAILED
    ∧ (execute_tranche rejectingVenue 0 [("price", 100)]).error = some "order rejected"
    ∧ FAILED ≠ FILLED := by
  refine ⟨?_, rfl, rfl, by decide⟩
  simp [split_into_tranches]

/-- C7 amended: a zero computed hedge size yields exactly one zero-size
tranche; that tranche is still submitted to the venue (side `sell`,
quantity 0) rather than short-circuited, and whenever the external call
succeeds and reports a filled quantity of 0 (including when the `filled`
key is absent), the tranche result is FILLED with filled = 0; if the
external call raises, the tranche is FAILED instead. -/
theorem C7_amended_zero_hedge_noop (p t : Bool)
    (placeOrder : String → ℚ → ℚ → Except String (List (String × ℚ)))
    (params : List (String × ℚ)) (pr : ℚ) (res : List (String × ℚ))
    (hpr : lookupQ params "price" = some pr)
    (hok : placeOrder "sell" 0 pr = .ok res)
    (hfill : dictGet res "filled" 0 = 0) :
    split_into_tranches 0 p t = [0]
    ∧ execute_tranche placeOrder 0 params
        = ⟨FILLED, some 0, some (dictGet res "cost" 0), some (dictGet res "slippage" 0),
           some (dictGet res "fees" 0), none⟩ := by
  constructor
  · simp [split_into_tranches]
  · have hside : (if (0 : ℚ) > 0 then "buy" else "sell") = "sell" := by norm_num
    simp only [execute_tranche, hpr, hside, abs_zero, hok, hfill, if_pos, if_true]

/-- Witness for the amended C7: a venue accepting the zero-quantity order
with an empty result dict. -/
theorem C7_amended_zero_hedge_noop_witness :
    split_into_tranches 0 true true = [0]
    ∧ execute_tranche (fun _ _ _ => .ok []) 0 [("price", 100)]
        = ⟨FILLED, some 0, some 0, some 0, some 0, none⟩ := by
  have hmain := C7_amended_zero_hedge_noop true true (fun _ _ _ => .ok []) [("price", 100)] 100 []
    rfl rfl rfl
  exact hmain

/-- C5: one tranche's failure does not abort the run — the tranche loop of
`execute_hedge` executes every tranche (one result per tranche, each the
total `execute_tranche` of its own external call), and when the external
call for a tranche raises, that tranche's result is classified FAILED with
the error text captured. -/
theorem C5_tranche_failure_isolated
    (placeOrder : ℕ → String → ℚ → ℚ → Except String (List (String × ℚ)))
    (tranches : List ℚ) (params : List (String × ℚ))
    (i : ℕ) (tr : ℚ) (e : String) (pr : ℚ)
    (htr : tranches.get? i = some tr)
    (hpr : lookupQ params "price" = some pr)
    (herr : placeOrder i (if tr > 0 then "buy" else "sell") |tr| pr = .error e) :
    ((tranches.enum.map (fun it => execute_tranche (placeOrder it.1) it.2 params)).length
        = tranches.length)
    ∧ (∀ j : ℕ, (tranches.enum.map
          (fun it => execute_tranche (placeOrder it.1) it.2 params)).get? j
        = (tranches.get? j).map (fun x => execute_tranche (placeOrder j) x params))
    ∧ ((tranches.enum.map (fun it => execute_tranche (placeOrder it.1) it.2 params)).get? i
        = some ⟨FAILED, none, none, none, none, some e⟩) := by
  have hget : ∀ j : ℕ, (tranches.enum.map
        (fun it => execute_tranche (placeOrder it.1) it.2 params)).get? j
      = (tranches.get? j).map (fun x => execute_tranche (placeOrder j) x params) := by
    intro j
    rw [List.get?_map, List.get?_enum]
    cases tranches.get? j <;> rfl
  refine ⟨by rw [List.length_map, List.enum_length], hget, ?_⟩
  rw [hget i, htr]
  simp only [Option.map_some', execute_tranche, hpr, herr]

/-- Witness for C5: two tranches of size 2; the external call fails for the
second (index 1) with "exchange down" while the first fills. -/
theorem C5_tranche_failure_isolated_witness :
    (([(2 : ℚ), 2].enum.map (fun it => execute_tranche
        ((fun n _ _ _ => if n = 1 then .error "exchange down"
          else .ok [("filled", (2 : ℚ))]) it.1) it.2 [("price", 100)])).length = 2)
    ∧ (([(2 : ℚ), 2].enum.map (fun it => execute_tranche
        ((fun n _ _ _ => if n = 1 then .error "exchange down"
          else .ok [("filled", (2 : ℚ))]) it.1) it.2 [("price", 100)])).get? 1
        = some ⟨FAILED, none, none, none, none, some "exchange down"⟩) := by
  have hmain := C5_tranche_failure_isolated
    (fun n _ _ _ => if n = 1 then .error "exchange down" else .ok [("filled", (2 : ℚ))])
    [(2 : ℚ), 2] [("price", 100)] 1 2 "exchange down" 100 rfl rfl (by norm_num)
  exact ⟨hmain.1, hmain.2.2⟩

/-- `dict.get` is the defaulted key lookup. -/
theorem dictGet_eq_lookupQ (d : List (String × ℚ)) (k : String) (dflt : ℚ) :
    dictGet d k dflt = (lookupQ d k).getD dflt := by
  unfold dictGet lookupQ
  cases d.find? (fun p => p.1 == k) <;> rfl

/-- Dropping the entries of one key leaves every other key's lookup
unchanged. -/
theorem lookupQ_filter_ne (d : List (String × ℚ)) (bad k : String) (hk : k ≠ bad) :
    lookupQ (d.filter (fun p => ¬(p.1 = bad))) k = lookupQ d k := by
  induction d with
  | nil => rfl
  | cons a d ih =>
    by_cases hb : a.1 = bad
    · have hstep : (a :: d).filter (fun p => ¬(p.1 = bad)) = d.filter (fun p => ¬(p.1 = bad)) := by
        simp [List.filter_cons, hb]
      have hne : (a.1 == k) = false := by
        simp only [beq_eq_false_iff_ne]
        intro hak
        exact hk (by rw [← hak, hb])
      rw [hstep, ih]
      unfold lookupQ
      simp only [List.find?, hne]
    · have hstep : (a :: d).filter (fun p => ¬(p.1 = bad))
          = a :: d.filter (fun p => ¬(p.1 = bad)) := by
        simp [List.filter_cons, hb]
      rw [hstep]
      unfold lookupQ
      by_cases hak : (a.1 == k) = true
      · simp only [List.find?, hak]
      · have hak2 : (a.1 == k) = false := by
          revert hak; cases (a.1 == k) <;> simp
        simp only [List.find?, hak2]
        exact ih

/-- Two snapshots that agree outside the `'fee'` key get the same score and
the same routed order params: the router never reads `'fee'`. -/
theorem venueScore_fee_independent (ob1 ob2 : List (String × ℚ)) (h : ℚ)
    (hfil : ob1.filter (fun p => ¬(p.1 = "fee")) = ob2.filter (fun p => ¬(p.1 = "fee"))) :
    venueScore ob1 h = venueScore ob2 h ∧ venueParams ob1 h = venueParams ob2 h := by
  have hdg : ∀ k dflt, k ≠ "fee" → dictGet ob1 k dflt = dictGet ob2 k dflt := by
    intro k dflt hk
    rw [dictGet_eq_lookupQ, dictGet_eq_lookupQ,
      ← lookupQ_filter_ne ob1 "fee" k hk, hfil, lookupQ_filter_ne ob2 "fee" k hk]
  have hprice : (if h > 0 then "best_ask" else "best_bid") ≠ "fee" := by
    split <;> decide
  unfold venueScore venueParams
  rw [hdg _ 0 hprice, hdg "depth" 0 (by decide), hdg "fees" (4/10000) (by decide),
    hdg "latency" (1/10) (by decide)]
  exact ⟨rfl, rfl⟩

/-- C10: the routing decision is independent of the `'fee'` field named in
the external interface contract — the code reads the key `'fees'`
(defaulting to 0.0004 when absent), so two per-venue orderbook snapshots
that differ only in their `'fee'` entries and carry no `'fees'` key produce
the identical routed venue and order params. -/
theorem C10_fee_key_ignored (obs1 obs2 : String → List (String × ℚ))
    (venues : List String) (h : ℚ)
    (hagree : ∀ v ∈ venues,
        (obs1 v).filter (fun p => ¬(p.1 = "fee")) = (obs2 v).filter (fun p => ¬(p.1 = "fee"))
        ∧ lookupQ (obs1 v) "fees" = none ∧ lookupQ (obs2 v) "fees" = none) :
    route_order obs1 venues h = route_order obs2 venues h := by
  have hfold : ∀ (vs : List String), (∀ v ∈ vs,
        (obs1 v).filter (fun p => ¬(p.1 = "fee")) = (obs2 v).filter (fun p => ¬(p.1 = "fee")))
      → ∀ st, vs.foldl (routeStep obs1 h) st = vs.foldl (routeStep obs2 h) st := by
    intro vs
    induction vs with
    | nil => intro _ st; rfl
    | cons v vs ih =>
      intro hag st
      rw [List.foldl_cons, List.foldl_cons]
      have hv := venueScore_fee_independent (obs1 v) (obs2 v) h (hag v (List.mem_cons_self _ _))
      have hstep : routeStep obs1 h st v = routeStep obs2 h st v := by
        simp only [routeStep, hv.1, hv.2]
      rw [hstep]
      exact ih (fun u hu => hag u (List.mem_cons_of_mem _ hu)) _
  unfold route_order
  rw [hfold venues (fun v hv => (hagree v hv).1) ⟨none, none, []⟩]

/-- Witness for C10: two one-venue book functions identical except for the
`'fee'` value (1 vs 99), neither holding a `'fees'` key. -/
theorem C10_fee_key_ignored_witness :
    route_order (fun _ => [("best_ask", (100 : ℚ)), ("fee", 1)]) ["X"] 1
      = route_order (fun _ => [("best_ask", (100 : ℚ)), ("fee", 99)]) ["X"] 1 :=
  C10_fee_key_ignored (fun _ => [("best_ask", (100 : ℚ)), ("fee", 1)])
    (fun _ => [("best_ask", (100 : ℚ)), ("fee", 99)]) ["X"] 1
    (by intro v hv; refine ⟨?_, rfl, rfl⟩; rfl)

/-- Two predicates agreeing on every member find the same first hit. -/
theorem find?_congr_mem {α : Type} (l : List α) (p q : α → Bool)
    (h : ∀ a ∈ l, p a = q a) : l.find? p = l.find? q := by
  induction l with
  | nil => rfl
  | cons a l ih =>
    have ha := h a (List.mem_cons_self _ _)
    simp only [List.find?, ha]
    cases hq : q a
    · exact ih (fun b hb => h b (List.mem_cons_of_mem _ hb))
    · rfl

theorem bool_eq_of_true_iff {a b : Bool} (h : a = true ↔ b = true) : a = b := by
  cases a <;> cases b <;> simp_all

/-- The running best of the `_route_order` loop once a first venue is in
place: each later venue replaces the best exactly when its score is
strictly greater. -/
def selectVenue (score : String → ℚ) (best : String) : List String → String
  | [] => best
  | v :: vs => if score v > score best then selectVenue score v vs else selectVenue score best vs

/-- The loop of `_route_order`, started after its first iteration, keeps
`best_score`/`best_params` consistent with `best_venue` and computes
`selectVenue`. -/
theorem foldl_routeStep_eq_selectVenue (orderBooks : String → List (String × ℚ)) (h : ℚ)
    (vs : List String) (v0 : String) :
    vs.foldl (routeStep orderBooks h)
      ⟨some v0, some (venueScore (orderBooks v0) h), venueParams (orderBooks v0) h⟩
    = ⟨some (selectVenue (fun u => venueScore (orderBooks u) h) v0 vs),
       some (venueScore (orderBooks (selectVenue (fun u => venueScore (orderBooks u) h) v0 vs)) h),
       venueParams (orderBooks (selectVenue (fun u => venueScore (orderBooks u) h) v0 vs)) h⟩ := by
  induction vs generalizing v0 with
  | nil => rfl
  | cons v vs ih =>
    rw [List.foldl_cons]
    by_cases hgt : venueScore (orderBooks v) h > venueScore (orderBooks v0) h
    · have hstep : routeStep orderBooks h
          ⟨some v0, some (venueScore (orderBooks v0) h), venueParams (orderBooks v0) h⟩ v
          = ⟨some v, some (venueScore (orderBooks v) h), venueParams (orderBooks v) h⟩ := by
        simp only [routeStep]
        rw [if_pos hgt]
      have hsel : selectVenue (fun u => venueScore (orderBooks u) h) v0 (v :: vs)
          = selectVenue (fun u => venueScore (orderBooks u) h) v vs := by
        rw [show selectVenue (fun u => venueScore (orderBooks u) h) v0 (v :: vs)
            = if venueScore (orderBooks v) h > venueScore (orderBooks v0) h
              then selectVenue (fun u => venueScore (orderBooks u) h) v vs
              else selectVenue (fun u => venueScore (orderBooks u) h) v0 vs from rfl,
          if_pos hgt]
      rw [hstep, ih v, hsel]
    · have hstep : routeStep orderBooks h
          ⟨some v0, some (venueScore (orderBooks v0) h), venueParams (orderBooks v0) h⟩ v
          = ⟨some v0, some (venueScore (orderBooks v0) h), venueParams (orderBooks v0) h⟩ := by
        simp only [routeStep]
        rw [if_neg hgt]
      have hsel : selectVenue (fun u => venueScore (orderBooks u) h) v0 (v :: vs)
          = selectVenue (fun u => venueScore (orderBooks u) h) v0 vs := by
        rw [show selectVenue (fun u => venueScore (orderBooks u) h) v0 (v :: vs)
            = if venueScore (orderBooks v) h > venueScore (orderBooks v0) h
              then selectVenue (fun u => venueScore (orderBooks u) h) v vs
              else selectVenue (fun u => venueScore (orderBooks u) h) v0 vs from rfl,
          if_neg hgt]
      rw [hstep, ih v0, hsel]

/-- `selectVenue` picks the first venue, in enumeration order, whose score
is greater than or equal to every venue's score. -/
theorem selectVenue_first_argmax (score : String → ℚ) (vs : List String) (v0 : String) :
    some (selectVenue score v0 vs)
    = (v0 :: vs).find? (fun u => (v0 :: vs).all (fun x => score x ≤ score u)) := by
  induction vs generalizing v0 with
  | nil => simp [selectVenue, List.find?]
  | cons v vs ih =>
    by_cases hgt : score v0 < score v
    · have hsel : selectVenue score v0 (v :: vs) = selectVenue score v vs := by
        rw [show selectVenue score v0 (v :: vs)
            = if score v > score v0 then selectVenue score v vs else selectVenue score v0 vs
            from rfl,
          if_pos (show score v > score v0 from hgt)]
      have hpt : ∀ u : String,
          ((v :: vs).all (fun x => score x ≤ score u))
            = ((v0 :: v :: vs).all (fun x => score x ≤ score u)) := by
        intro u
        apply bool_eq_of_true_iff
        simp only [List.all_eq_true, decide_eq_true_eq]
        constructor
        · intro hsmall x hx
          rcases List.mem_cons.mp hx with hx0 | hx1
          · rw [hx0]
            have hv := hsmall v (List.mem_cons_self _ _)
            linarith
          · exact hsmall x hx1
        · intro hbig x hx
          exact hbig x (List.mem_cons_of_mem _ hx)
      have hv0 : ((v0 :: v :: vs).all (fun x => score x ≤ score v0)) = false := by
        rw [Bool.eq_false_iff]
        simp only [ne_eq, List.all_eq_true, decide_eq_true_eq]
        intro hall
        have := hall v (List.mem_cons_of_mem _ (List.mem_cons_self _ _))
        linarith
      rw [hsel, ih v]
      have hskip : (v0 :: v :: vs).find? (fun u => (v0 :: v :: vs).all (fun x => score x ≤ score u))
          = (v :: vs).find? (fun u => (v0 :: v :: vs).all (fun x => score x ≤ score u)) := by
        simp only [List.find?, hv0]
      rw [hskip]
      exact find?_congr_mem _ _ _ (fun a _ => hpt a)
    · have hle : score v ≤ score v0 := not_lt.mp hgt
      have hsel : selectVenue score v0 (v :: vs) = selectVenue score v0 vs := by
        rw [show selectVenue score v0 (v :: vs)
            = if score v > score v0 then selectVenue score v vs else selectVenue score v0 vs
            from rfl,
          if_neg hgt]
      rw [hsel, ih v0]
      have hpt : ∀ u : String,
          ((v0 :: v :: vs).all (fun x => score x ≤ score u))
            = ((v0 :: vs).all (fun x => score x ≤ score u)) := by
        intro u
        apply bool_eq_of_true_iff
        simp only [List.all_eq_true, decide_eq_true_eq]
        constructor
        · intro hbig x hx
          rcases List.mem_cons.mp hx with hx0 | hx1
          · rw [hx0]
            exact hbig v0 (List.mem_cons_self _ _)
          · exact hbig x (List.mem_cons_of_mem _ (List.mem_cons_of_mem _ hx1))
        · intro hN x hx
          rcases List.mem_cons.mp hx with hx0 | hx
          · rw [hx0]
            exact hN v0 (List.mem_cons_self _ _)
          rcases List.mem_cons.mp hx with hx1 | hx
          · rw [hx1]
            have h0 := hN v0 (List.mem_cons_self _ _)
            linarith
          · exact hN x (List.mem_cons_of_mem _ hx)
      have hrw : (v0 :: v :: vs).find? (fun u => (v0 :: v :: vs).all (fun x => score x ≤ score u))
          = (v0 :: v :: vs).find? (fun u => (v0 :: vs).all (fun x => score x ≤ score u)) :=
        find?_congr_mem _ _ _ (fun a _ => hpt a)
      rw [hrw]
      by_cases hq0 : ((v0 :: vs).all (fun x => score x ≤ score v0)) = true
      · simp only [List.find?, hq0]
      · have hq0f : ((v0 :: vs).all (fun x => score x ≤ score v0)) = false := by
          revert hq0
          cases ((v0 :: vs).all (fun x => score x ≤ score v0)) <;> simp
        have hqvf : ((v0 :: vs).all (fun x => score x ≤ score v)) = false := by
          rw [Bool.eq_false_iff]
          simp only [ne_eq, List.all_eq_true, decide_eq_true_eq]
          intro hvt
          apply hq0
          simp only [List.all_eq_true, decide_eq_true_eq]
          intro x hx
          exact le_trans (hvt x hx) hle
        simp only [List.find?, hq0f, hqvf]

/-- The venue `_route_order` would pick per the spec's words (§4.2): the
first venue, in the caller-supplied enumeration order, whose score is
maximal. -/
def firstBestVenue (orderBooks : String → List (String × ℚ))
    (venues : List String) (h : ℚ) : Option String :=
  venues.find? (fun u => venues.all
    (fun x => venueScore (orderBooks x) h ≤ venueScore (orderBooks u) h))

/-- `_route_order` on a non-empty venue list returns the `selectVenue`
winner together with its own snapshot's params. -/
theorem route_order_cons (orderBooks : String → List (String × ℚ)) (h : ℚ)
    (v : String) (vs : List String) :
    route_order orderBooks (v :: vs) h
      = (some (selectVenue (fun u => venueScore (orderBooks u) h) v vs),
         venueParams (orderBooks (selectVenue (fun u => venueScore (orderBooks u) h) v vs)) h) := by
  unfold route_order
  rw [List.foldl_cons,
    show routeStep orderBooks h ⟨none, none, []⟩ v
      = ⟨some v, some (venueScore (orderBooks v) h), venueParams (orderBooks v) h⟩ from rfl,
    foldl_routeStep_eq_selectVenue]

/-- C9: on every non-empty venue list the router selects exactly the first
venue, in enumeration order, whose score
`−|price| − fees×1000 − latency×10 + depth×0.01` is maximal — the highest
score wins and ties resolve to the first-enumerated venue. -/
theorem C9_route_selects_first_best (orderBooks : String → List (String × ℚ))
    (h : ℚ) (venues : List String) (hne : venues ≠ []) :
    ∃ w, (route_order orderBooks venues h).1 = some w
      ∧ firstBestVenue orderBooks venues h = some w
      ∧ w ∈ venues
      ∧ ∀ u ∈ venues, venueScore (orderBooks u) h ≤ venueScore (orderBooks w) h := by
  match venues, hne with
  | v :: vs, _ =>
    have hfd : firstBestVenue orderBooks (v :: vs) h
        = some (selectVenue (fun u => venueScore (orderBooks u) h) v vs) :=
      (selectVenue_first_argmax (fun u => venueScore (orderBooks u) h) vs v).symm
    refine ⟨selectVenue (fun u => venueScore (orderBooks u) h) v vs, ?_, hfd, ?_, ?_⟩
    · rw [route_order_cons]
    · exact List.mem_of_find?_eq_some hfd
    · have hp := List.find?_some hfd
      simp only [List.all_eq_true, decide_eq_true_eq] at hp
      exact hp

/-- The orderbook snapshots of the spec's venue-routing example: venue A at
ask 100 and venue B at ask 99, equal fees, latency and depth. -/
def exampleBooks : String → List (String × ℚ) := fun v =>
  if v = "A" then [("best_ask", 100), ("fees", 4/10000), ("latency", 1/10), ("depth", 50000)]
  else if v = "B" then [("best_ask", 99), ("fees", 4/10000), ("latency", 1/10), ("depth", 50000)]
  else []

/-- Witness for C9 at the spec's example: on a buy-side hedge, venue B
(ask 99) is selected over venue A (ask 100). -/
theorem C9_route_selects_first_best_witness :
    (route_order exampleBooks ["A", "B"] (95/100)).1 = some "B" := by
  obtain ⟨w, h1, h2, _, _⟩ :=
    C9_route_selects_first_best exampleBooks (95/100) ["A", "B"] (by simp)
  have hif : (if (19/20 : ℚ) > 0 then "best_ask" else "best_bid") = "best_ask" := by norm_num
  have hA : venueScore (exampleBooks "A") (19/20) = 1993/5 := by
    simp only [venueScore, hif]
    rw [show dictGet (exampleBooks "A") "best_ask" 0 = 100 from rfl,
      show dictGet (exampleBooks "A") "depth" 0 = 50000 from rfl,
      show dictGet (exampleBooks "A") "fees" (4/10000) = 4/10000 from rfl,
      show dictGet (exampleBooks "A") "latency" (1/10) = 1/10 from rfl]
    norm_num
  have hB : venueScore (exampleBooks "B") (19/20) = 1998/5 := by
    simp only [venueScore, hif]
    rw [show dictGet (exampleBooks "B") "best_ask" 0 = 99 from rfl,
      show dictGet (exampleBooks "B") "depth" 0 = 50000 from rfl,
      show dictGet (exampleBooks "B") "fees" (4/10000) = 4/10000 from rfl,
      show dictGet (exampleBooks "B") "latency" (1/10) = 1/10 from rfl]
    norm_num
  have hcomp : firstBestVenue exampleBooks ["A", "B"] (95/100) = some "B" := by
    norm_num [firstBestVenue, hA, hB]
  rw [hcomp] at h2
  rw [h1, Option.some_inj.mp h2]

/-- A non-empty list of all-FAILED results aggregates to FAILED. -/
theorem aggregate_status_all_failed (results : List TrancheResult)
    (hne : results ≠ []) (hall : ∀ r ∈ results, r.status = FAILED) :
    aggregate_status results = FAILED := by
  obtain ⟨r0, hr0⟩ := List.exists_mem_of_ne_nil results hne
  have h1 : ¬ ((results.map (·.status)).all (· = FILLED) = true) := by
    simp only [List.all_eq_true, List.mem_map, decide_eq_true_eq]
    push_neg
    exact ⟨FAILED, ⟨r0, hr0, hall r0 hr0⟩, by decide⟩
  have h2 : (results.map (·.status)).any (· = FAILED) = true := by
    simp only [List.any_eq_true, List.mem_map, decide_eq_true_eq]
    exact ⟨FAILED, ⟨r0, hr0, hall r0 hr0⟩, rfl⟩
  simp only [aggregate_status]
  rw [if_neg h1, if_pos h2]

/-- C1 counterexample: with an empty venue list (current delta 0,
volatility 0.05, liquidity 100000, target delta 1, an order-accepting
exchange), `execute_hedge` does not abort — no `NoVenueAvailable` error
exists in the code.  A tranche is still created (one tranche), a complete
summary is produced with status FAILED, and the venue is `None`. -/
theorem C1_counterexample :
    (execute_hedge 0 (5/100) 100000 [] (fun _ => [])
        (fun _ _ _ _ => .ok [("filled", 0)]) 1 true true).execution_results.length = 1
    ∧ (execute_hedge 0 (5/100) 100000 [] (fun _ => [])
        (fun _ _ _ _ => .ok [("filled", 0)]) 1 true true).status = FAILED
    ∧ (execute_hedge 0 (5/100) 100000 [] (fun _ => [])
        (fun _ _ _ _ => .ok [("filled", 0)]) 1 true true).venue = none := by
  have hhs : calculate_optimal_hedge_size 0 (5/100) 100000 1 = 19/20 := by
    norm_num [calculate_optimal_hedge_size]
  have habs : |(19/20 : ℚ)| < 1 := by
    rw [abs_of_pos (by norm_num : (0 : ℚ) < 19/20)]
    norm_num
  have htr : split_into_tranches (19/20) true true = [19/20] := by
    simp [split_into_tranches, habs]
  simp only [execute_hedge, hhs, htr]
  exact ⟨rfl, rfl, rfl⟩

/-- C1 amended: with an empty venue list no error is raised —
`_route_order` returns venue `None` with empty params; `execute_hedge`
still creates its tranches, every tranche fails inside the tranche
executor with the captured `KeyError` for the missing `'price'` param, and
a complete summary is produced with venue `None` and overall status
FAILED (the claimed `NoVenueAvailable` abort does not exist in the code). -/
theorem C1_amended_empty_venue_list (cd vol liq td : ℚ)
    (orderBooks : String → List (String × ℚ))
    (placeOrder : ℕ → String → ℚ → ℚ → Except String (List (String × ℚ)))
    (p t : Bool) :
    route_order orderBooks [] (calculate_optimal_hedge_size cd vol liq td) = (none, [])
    ∧ (execute_hedge cd vol liq [] orderBooks placeOrder td p t).venue = none
    ∧ (execute_hedge cd vol liq [] orderBooks placeOrder td p t).execution_results ≠ []
    ∧ (∀ r ∈ (execute_hedge cd vol liq [] orderBooks placeOrder td p t).execution_results,
        r = ⟨FAILED, none, none, none, none, some "KeyError: price"⟩)
    ∧ (execute_hedge cd vol liq [] orderBooks placeOrder td p t).status = FAILED := by
  have hres : (execute_hedge cd vol liq [] orderBooks placeOrder td p t).execution_results
      = (split_into_tranches (calculate_optimal_hedge_size cd vol liq td) p t).enum.map
          (fun it => execute_tranche (placeOrder it.1) it.2 []) := rfl
  have hmem : ∀ r ∈ (split_into_tranches (calculate_optimal_hedge_size cd vol liq td) p t).enum.map
        (fun it => execute_tranche (placeOrder it.1) it.2 []),
      r = ⟨FAILED, none, none, none, none, some "KeyError: price"⟩ := by
    intro r hr
    obtain ⟨it, _, hrfl⟩ := List.mem_map.mp hr
    rw [← hrfl]
    rfl
  have hnil : (split_into_tranches (calculate_optimal_hedge_size cd vol liq td) p t).enum.map
        (fun it => execute_tranche (placeOrder it.1) it.2 []) ≠ [] := by
    intro h0
    apply split_into_tranches_ne_nil (calculate_optimal_hedge_size cd vol liq td) p t
    have hlen := congrArg List.length h0
    simp only [List.length_map, List.enum_length, List.length_nil] at hlen
    exact List.length_eq_zero.mp hlen
  refine ⟨rfl, rfl, ?_, ?_, ?_⟩
  · rw [hres]
    exact hnil
  · rw [hres]
    exact hmem
  · have hstat : (execute_hedge cd vol liq [] orderBooks placeOrder td p t).status
        = aggregate_status ((split_into_tranches (calculate_optimal_hedge_size cd vol liq td) p t).enum.map
            (fun it => execute_tranche (placeOrder it.1) it.2 [])) := rfl
    rw [hstat]
    apply aggregate_status_all_failed _ hnil
    intro r hr
    rw [hmem r hr]

/-- Witness for the amended C1 at concrete inputs. -/
theorem C1_amended_empty_venue_list_witness :
    (execute_hedge 0 (5/100) 100000 [] (fun _ => [])
        (fun _ _ _ _ => .ok [("filled", 0)]) 1 true true).venue = none
    ∧ (execute_hedge 0 (5/100) 100000 [] (fun _ => [])
        (fun _ _ _ _ => .ok [("filled", 0)]) 1 true true).status = FAILED
    ∧ (execute_hedge 0 (5/100) 100000 [] (fun _ => [])
        (fun _ _ _ _ => .ok [("filled", 0)]) 1 true true).execution_results ≠ [] :=
  ⟨(C1_amended_empty_venue_list 0 (5/100) 100000 1 (fun _ => [])
      (fun _ _ _ _ => .ok [("filled", 0)]) true true).2.1,
   (C1_amended_empty_venue_list 0 (5/100) 100000 1 (fun _ => [])
      (fun _ _ _ _ => .ok [("filled", 0)]) true true).2.2.2.2,
   (C1_amended_empty_venue_list 0 (5/100) 100000 1 (fun _ => [])
      (fun _ _ _ _ => .ok [("filled", 0)]) true true).2.2.1⟩

end HedgingBot
